import Mathlib

/-!
Verification of the Early-Warning-System-for-GLOF analysis core.

Shallow embedding of the risk-assessment pipeline:
* `Lake`   — Backend/lake_size/lake_service.py (segmentation metrics, risk rule,
             trend aggregation over image sequences)
* `SAR`    — Backend/SAR/sar_service.py and preprocessing_service.py
* `DEM`    — Backend/srtm & motionOfWaves/dem_service.py
* `Motion` — Backend/srtm & motionOfWaves/motion_service.py
* `Pred`   — Backend/GLOF/prediction_service.py

Machine floats are modelled by exact rationals; rounding applied for
presentation (`round(x, 2)`) is not modelled, theorems speak about the
values before presentation rounding.
-/

namespace Lake

/-- Risk levels returned by the per-modality classifiers. -/
inductive RiskLevel where
  | LOW
  | MODERATE
  | HIGH
  | CRITICAL
deriving DecidableEq, Repr

/-- `LakeAnalyzer._calculate_change_percent` (lake_service.py lines 141-145):
`if before > 0: return ((after - before) / before) * 100` else `0.0`. -/
def calculate_change_percent (before after : ℚ) : ℚ :=
  if before > 0 then ((after - before) / before) * 100 else 0

/-- `LakeAnalyzer._assess_risk` (lake_service.py lines 147-154):
ordered threshold table over lake change percent and water percentage. -/
def assess_risk (lake_change water_percentage : ℚ) : RiskLevel :=
  if lake_change > 20 ∨ water_percentage > 60 then RiskLevel.HIGH
  else if lake_change > 10 ∨ water_percentage > 40 then RiskLevel.MODERATE
  else RiskLevel.LOW

/-- One per-image result of `LakeAnalyzer.analyze_image` as consumed by
`compare_images`: the `success` flag and the lake `size_after_m2` feature. -/
structure LakeObs where
  success : Bool
  size_after : ℚ
deriving DecidableEq, Repr

/-- Trend labels produced by `compare_images`. -/
inductive Trend where
  | EXPANDING
  | SHRINKING
  | STABLE
  | UNKNOWN
  | INSUFFICIENT_DATA
deriving DecidableEq, Repr

/-- The trend aggregation of `LakeAnalyzer.compare_images`
(lake_service.py lines 235-248): branches on the TOTAL result count first,
then on the count of successful results; returns
(trend, total_change, average_change). -/
def compare_images_trend (results : List LakeObs) : Trend × ℚ × ℚ :=
  if 2 ≤ results.length then
    let lake_sizes := (results.filter (fun r => r.success)).map (fun r => r.size_after)
    if 2 ≤ lake_sizes.length then
      let total_change := lake_sizes.getLastD 0 - lake_sizes.headD 0
      let avg_change := total_change / ((lake_sizes.length : ℚ) - 1)
      let trend :=
        if total_change > 0 then Trend.EXPANDING
        else if total_change < 0 then Trend.SHRINKING
        else Trend.STABLE
      (trend, total_change, avg_change)
    else (Trend.UNKNOWN, 0, 0)
  else (Trend.INSUFFICIENT_DATA, 0, 0)

/-- The per-image loop of `compare_images` (lake_service.py lines 230-233):
`analyze_image` raises on an unreadable image and the loop has no handler,
so the first failure aborts the whole comparison. -/
def run_images {α : Type} (analyze : α → Except String LakeObs) :
    List α → Except String (List LakeObs)
  | [] => Except.ok []
  | p :: rest =>
    match analyze p with
    | Except.error e => Except.error e
    | Except.ok r =>
      match run_images analyze rest with
      | Except.error e => Except.error e
      | Except.ok rs => Except.ok (r :: rs)

/-- `LakeAnalyzer.compare_images` (lake_service.py lines 212-259): analyze each
image in order (aborting on the first raised error), then aggregate the trend.
Returns (image_count, trend analysis). -/
def compare_images {α : Type} (analyze : α → Except String LakeObs)
    (image_paths : List α) : Except String (ℕ × Trend × ℚ × ℚ) :=
  match run_images analyze image_paths with
  | Except.error e => Except.error e
  | Except.ok results => Except.ok (results.length, compare_images_trend results)

end Lake

/-- C3: the lake risk level is HIGH iff lake_change > 20 or water_percentage > 60
(strict comparisons), otherwise MODERATE iff lake_change > 10 or
water_percentage > 40, otherwise LOW; conditions tested in listed order,
first satisfied condition wins. -/
theorem lake_assess_risk_table (c w : ℚ) :
    (Lake.assess_risk c w = Lake.RiskLevel.HIGH ↔ (c > 20 ∨ w > 60)) ∧
    (Lake.assess_risk c w = Lake.RiskLevel.MODERATE ↔
      (¬(c > 20 ∨ w > 60) ∧ (c > 10 ∨ w > 40))) ∧
    (Lake.assess_risk c w = Lake.RiskLevel.LOW ↔
      (¬(c > 20 ∨ w > 60) ∧ ¬(c > 10 ∨ w > 40))) := by
  unfold Lake.assess_risk
  split_ifs with h1 h2 <;> simp_all

/-- C7: percent change is `(after − before)/before × 100` whenever `before > 0`,
and exactly `0` when `before = 0` (the division is never taken there). -/
theorem change_percent_spec (before after : ℚ) :
    (before > 0 → Lake.calculate_change_percent before after
        = ((after - before) / before) * 100) ∧
    (before = 0 → Lake.calculate_change_percent before after = 0) := by
  constructor
  · intro h
    simp [Lake.calculate_change_percent, h]
  · intro h
    simp [Lake.calculate_change_percent, h]

/-- Witness for `change_percent_spec`: at before = 4, after = 5 the positive
branch gives 25%, and at before = 0 the result is 0. -/
theorem change_percent_spec_witness :
    Lake.calculate_change_percent 4 5 = ((5 - 4) / 4 : ℚ) * 100 ∧
    Lake.calculate_change_percent 0 7 = 0 :=
  ⟨(change_percent_spec 4 5).1 (by norm_num),
   (change_percent_spec 0 7).2 rfl⟩

/-- C1 counterexample: a sequence holding exactly ONE successful observation.
The claim requires trend = UNKNOWN for exactly one successful observation,
but `compare_images` branches on the TOTAL result count first and returns
INSUFFICIENT_DATA for any list shorter than 2, successful or not. -/
theorem lake_trend_counterexample :
    (([⟨true, 10⟩] : List Lake.LakeObs).filter (fun r => r.success)).length = 1 ∧
    (Lake.compare_images_trend [⟨true, 10⟩]).1 = Lake.Trend.INSUFFICIENT_DATA := by
  decide

/-- C1 (amended): trend = INSUFFICIENT_DATA when the result list has fewer
than two entries (regardless of how many succeeded); with at least two
entries but fewer than two successful ones, trend = UNKNOWN (changes 0);
with at least two successful observations, total_change = last − first of
the successful after-sizes, average_change = total_change / (count − 1),
and the trend is EXPANDING / SHRINKING / STABLE by comparison of the first
and last successful values. -/
theorem lake_trend_amended (results : List Lake.LakeObs) (sizes : List ℚ)
    (hs : sizes = (results.filter (fun r => r.success)).map (fun r => r.size_after)) :
    (results.length < 2 →
      Lake.compare_images_trend results = (Lake.Trend.INSUFFICIENT_DATA, 0, 0)) ∧
    (2 ≤ results.length → sizes.length < 2 →
      Lake.compare_images_trend results = (Lake.Trend.UNKNOWN, 0, 0)) ∧
    (∀ f l, sizes.head? = some f → sizes.getLast? = some l → 2 ≤ sizes.length →
      Lake.compare_images_trend results =
        ((if f < l then Lake.Trend.EXPANDING
          else if l < f then Lake.Trend.SHRINKING
          else Lake.Trend.STABLE),
         l - f, (l - f) / ((sizes.length : ℚ) - 1))) := by
  subst hs
  unfold Lake.compare_images_trend
  refine ⟨?_, ?_, ?_⟩
  · intro h
    rw [if_neg (by omega)]
  · intro h1 h2
    rw [if_pos h1, if_neg (by omega)]
  · intro f l hf hl h2
    have h1 : 2 ≤ results.length := by
      have hle := List.length_filter_le (fun r => r.success) results
      simp only [List.length_map] at h2
      omega
    rw [if_pos h1, if_pos h2]
    have hhead : ((results.filter (fun r => r.success)).map
        (fun r => r.size_after)).headD 0 = f := by
      rw [List.headD_eq_head?, hf]
      rfl
    have hlast : ((results.filter (fun r => r.success)).map
        (fun r => r.size_after)).getLastD 0 = l := by
      rw [List.getLastD_eq_getLast?, hl]
      rfl
    simp only [hhead, hlast, gt_iff_lt, sub_pos, sub_neg]


/-- Witness for `lake_trend_amended`: the sequence of after-sizes [10, 15]
yields trend EXPANDING with total_change 5 and average_change 5. -/
theorem lake_trend_amended_witness :
    Lake.compare_images_trend [⟨true, 10⟩, ⟨true, 15⟩]
      = (Lake.Trend.EXPANDING, 5, 5) := by
  have h := (lake_trend_amended [⟨true, 10⟩, ⟨true, 15⟩] [10, 15] (by decide)).2.2
    10 15 rfl rfl (by decide)
  rw [h]
  norm_num

namespace SAR

/-- One result of `SARAnalyzer.predict` as consumed by `analyze_batch`:
the `success` flag and the `glof_probability` field. -/
structure PredResult where
  success : Bool
  glof_probability : ℚ
deriving DecidableEq, Repr

/-- Return value of `SARAnalyzer.analyze_batch`: either the aggregate record
(success case) or the "No images could be analyzed" failure; both carry the
full individual-results list. -/
inductive BatchOutcome where
  | ok (total_images successful_analyses : ℕ)
      (average_glof_probability max_glof_probability : ℚ)
      (individual_results : List PredResult)
  | failure (individual_results : List PredResult)
deriving DecidableEq, Repr

/-- The `individual_results` field of either batch outcome. -/
def BatchOutcome.individual : BatchOutcome → List PredResult
  | .ok _ _ _ _ ind => ind
  | .failure ind => ind

/-- `SARAnalyzer.analyze_batch` (sar_service.py lines 179-216): `predict`
never raises (its body catches exceptions and returns a success=false
record), so every path is analyzed; statistics are taken over the
successful results only. -/
def analyze_batch {α : Type} (predict : α → PredResult)
    (image_paths : List α) : BatchOutcome :=
  let results := image_paths.map predict
  match results.filter (fun r => r.success) with
  | [] => BatchOutcome.failure results
  | s :: rest =>
    BatchOutcome.ok image_paths.length (s :: rest).length
      (((s :: rest).map (fun r => r.glof_probability)).sum
        / (((s :: rest).length : ℚ)))
      ((rest.map (fun r => r.glof_probability)).foldl max s.glof_probability)
      results

/-- `SARPreprocessor.normalize` (preprocessing_service.py lines 92-110),
with the image flattened to its list of values: min–max normalization,
all-zero when the value range is degenerate. Helper `listMin`/`listMax`
model `np.min`/`np.max` on a non-empty array. -/
def listMin : List ℚ → ℚ
  | [] => 0
  | x :: xs => xs.foldl min x

/-- `np.max` over a non-empty array (0 on the unreachable empty case). -/
def listMax : List ℚ → ℚ
  | [] => 0
  | x :: xs => xs.foldl max x

/-- `SARPreprocessor.normalize`: `(x - min) / (max - min)` when
`max - min > 0`, otherwise an all-zero array of the same shape. -/
def normalize (image : List ℚ) : List ℚ :=
  let min_val := listMin image
  let max_val := listMax image
  if 0 < max_val - min_val then
    image.map (fun x => (x - min_val) / (max_val - min_val))
  else
    image.map (fun _ => 0)

/-- `SARAnalyzer._format_prediction` (sar_service.py lines 101-143), the
`glof_probability` computation: class probabilities are scaled to
percentages, weighted during×1.0 + post×0.3 + pre×0.1, capped at 100. -/
def glof_probability (pre_glof during_glof post_glof : ℚ) : ℚ :=
  min 100 ((during_glof * 100) * 1 + (post_glof * 100) * (3 / 10)
    + (pre_glof * 100) * (1 / 10))

end SAR

namespace SAR

theorem foldl_max_init_le (a : ℚ) (l : List ℚ) : a ≤ l.foldl max a := by
  induction l generalizing a with
  | nil => exact le_refl a
  | cons x xs ih =>
    exact le_trans (le_max_left a x) (ih (max a x))

theorem le_foldl_max (a : ℚ) (l : List ℚ) : ∀ x ∈ l, x ≤ l.foldl max a := by
  induction l generalizing a with
  | nil => intro x hx; cases hx
  | cons y ys ih =>
    intro x hx
    rcases List.mem_cons.mp hx with h | h
    · subst h
      exact le_trans (le_max_right a x) (foldl_max_init_le (max a x) ys)
    · exact ih (max a y) x h

theorem foldl_max_mem (a : ℚ) (l : List ℚ) :
    l.foldl max a = a ∨ l.foldl max a ∈ l := by
  induction l generalizing a with
  | nil => exact Or.inl rfl
  | cons x xs ih =>
    rcases ih (max a x) with h | h
    · rcases max_choice a x with hc | hc
      · exact Or.inl (by rw [List.foldl_cons, h, hc])
      · exact Or.inr (by rw [List.foldl_cons, h, hc]; exact List.mem_cons_self x xs)
    · exact Or.inr (List.mem_cons_of_mem x h)

theorem foldl_min_le_init (a : ℚ) (l : List ℚ) : l.foldl min a ≤ a := by
  induction l generalizing a with
  | nil => exact le_refl a
  | cons x xs ih =>
    exact le_trans (ih (min a x)) (min_le_left a x)

theorem foldl_min_le (a : ℚ) (l : List ℚ) : ∀ x ∈ l, l.foldl min a ≤ x := by
  induction l generalizing a with
  | nil => intro x hx; cases hx
  | cons y ys ih =>
    intro x hx
    rcases List.mem_cons.mp hx with h | h
    · subst h
      exact le_trans (foldl_min_le_init (min a x) ys) (min_le_right a x)
    · exact ih (min a y) x h

theorem foldl_min_mem (a : ℚ) (l : List ℚ) :
    l.foldl min a = a ∨ l.foldl min a ∈ l := by
  induction l generalizing a with
  | nil => exact Or.inl rfl
  | cons x xs ih =>
    rcases ih (min a x) with h | h
    · rcases min_choice a x with hc | hc
      · exact Or.inl (by rw [List.foldl_cons, h, hc])
      · exact Or.inr (by rw [List.foldl_cons, h, hc]; exact List.mem_cons_self x xs)
    · exact Or.inr (List.mem_cons_of_mem x h)

theorem listMin_mem (l : List ℚ) (h : l ≠ []) : listMin l ∈ l := by
  match l with
  | [] => exact absurd rfl h
  | x :: xs =>
    rcases foldl_min_mem x xs with hm | hm
    · rw [listMin, hm]; exact List.mem_cons_self x xs
    · rw [listMin]; exact List.mem_cons_of_mem x hm

theorem listMin_le (l : List ℚ) : ∀ x ∈ l, listMin l ≤ x := by
  match l with
  | [] => intro x hx; cases hx
  | y :: ys =>
    intro x hx
    rcases List.mem_cons.mp hx with h | h
    · subst h; exact foldl_min_le_init x ys
    · exact foldl_min_le y ys x h

theorem listMax_mem (l : List ℚ) (h : l ≠ []) : listMax l ∈ l := by
  match l with
  | [] => exact absurd rfl h
  | x :: xs =>
    rcases foldl_max_mem x xs with hm | hm
    · rw [listMax, hm]; exact List.mem_cons_self x xs
    · rw [listMax]; exact List.mem_cons_of_mem x hm

theorem le_listMax (l : List ℚ) : ∀ x ∈ l, x ≤ listMax l := by
  match l with
  | [] => intro x hx; cases hx
  | y :: ys =>
    intro x hx
    rcases List.mem_cons.mp hx with h | h
    · subst h; exact foldl_max_init_le x ys
    · exact le_foldl_max y ys x h

theorem listMin_eq_of (l : List ℚ) (x : ℚ) (hx : x ∈ l)
    (hlb : ∀ y ∈ l, x ≤ y) : listMin l = x :=
  le_antisymm (listMin_le l x hx)
    (hlb _ (listMin_mem l (List.ne_nil_of_mem hx)))

theorem listMax_eq_of (l : List ℚ) (x : ℚ) (hx : x ∈ l)
    (hub : ∀ y ∈ l, y ≤ x) : listMax l = x :=
  le_antisymm (hub _ (listMax_mem l (List.ne_nil_of_mem hx)))
    (le_listMax l x hx)

end SAR

/-- Concrete per-image lake analyzer: image 0 is unreadable
(`analyze_image` raises ValueError "Could not read image"), every other
image succeeds with after-size 10. -/
def failing_then_ok (n : ℕ) : Except String Lake.LakeObs :=
  if n = 0 then Except.error "Could not read image" else Except.ok ⟨true, 10⟩

/-- Concrete SAR predictor: image 0 fails, every other image succeeds with
glof_probability 60. -/
def mixed_predict (n : ℕ) : SAR.PredResult :=
  if n = 0 then ⟨false, 0⟩ else ⟨true, 60⟩

/-- C2 counterexample: in the lake image sequence, a failure of the first
observation DOES abort the sibling observation: image 1 analyzes fine on
its own, yet `compare_images` on [0, 1] propagates image 0's error and
returns no result at all for image 1. -/
theorem batch_isolation_counterexample :
    failing_then_ok 1 = Except.ok ⟨true, 10⟩ ∧
    Lake.compare_images failing_then_ok [0, 1]
      = Except.error "Could not read image" := by
  exact ⟨rfl, rfl⟩

/-- The abort behaviour of the `compare_images` loop: after any run of
successful observations, the first failing observation's error is the
result of the whole run — the remaining images are never reached. -/
theorem run_images_error_after_ok_run {α : Type}
    (analyze : α → Except String Lake.LakeObs) (pre : List α) (p : α)
    (rest : List α) (e : String)
    (hpre : ∀ q ∈ pre, ∃ r, analyze q = Except.ok r)
    (hp : analyze p = Except.error e) :
    Lake.run_images analyze (pre ++ p :: rest) = Except.error e := by
  induction pre with
  | nil =>
    simp [Lake.run_images, hp]
  | cons q qs ih =>
    obtain ⟨r, hr⟩ := hpre q (List.mem_cons_self q qs)
    have hqs := ih (fun x hx => hpre x (List.mem_cons_of_mem q hx))
    simp [Lake.run_images, hr, hqs]

/-- C2 (amended): in the SAR batch, one observation's failure does not abort
siblings — every input appears (in order) in the individual results, the
outcome is the failure record iff no observation succeeded, and in the
success case the aggregate reports total image count, how many succeeded,
the average of the succeeded probabilities and their maximum. In the lake
image sequence, by contrast, a failing observation at any position —
here after an arbitrary run of successful siblings — raises and aborts the
remaining observations: the whole comparison returns that error. -/
theorem batch_isolation_amended :
    (∀ (α : Type) (predict : α → SAR.PredResult) (paths : List α),
      (SAR.analyze_batch predict paths).individual = paths.map predict ∧
      ((∃ ind, SAR.analyze_batch predict paths = SAR.BatchOutcome.failure ind) ↔
        (paths.map predict).countP (fun r => r.success) = 0) ∧
      (∀ total cnt avg mx ind,
        SAR.analyze_batch predict paths
            = SAR.BatchOutcome.ok total cnt avg mx ind →
        total = paths.length ∧
        cnt = (paths.map predict).countP (fun r => r.success) ∧
        avg = (((paths.map predict).filter (fun r => r.success)).map
            (fun r => r.glof_probability)).sum
          / (((((paths.map predict).filter (fun r => r.success)).map
            (fun r => r.glof_probability)).length : ℚ)) ∧
        mx ∈ ((paths.map predict).filter (fun r => r.success)).map
            (fun r => r.glof_probability) ∧
        (∀ x ∈ ((paths.map predict).filter (fun r => r.success)).map
            (fun r => r.glof_probability), x ≤ mx))) ∧
    (∀ (α : Type) (analyze : α → Except String Lake.LakeObs)
        (pre : List α) (p : α) (rest : List α) (e : String),
      (∀ q ∈ pre, ∃ r, analyze q = Except.ok r) →
      analyze p = Except.error e →
      Lake.compare_images analyze (pre ++ p :: rest) = Except.error e) := by
  constructor
  · intro α predict paths
    cases hfil : (paths.map predict).filter (fun r => r.success) with
    | nil =>
      refine ⟨?_, ?_, ?_⟩
      · simp only [SAR.analyze_batch, hfil, SAR.BatchOutcome.individual]
      · simp only [SAR.analyze_batch, hfil, List.countP_eq_length_filter]
        simp
      · intro total cnt avg mx ind h
        simp only [SAR.analyze_batch, hfil] at h
        cases h
    | cons s rest =>
      refine ⟨?_, ?_, ?_⟩
      · simp only [SAR.analyze_batch, hfil, SAR.BatchOutcome.individual]
      · simp only [SAR.analyze_batch, hfil, List.countP_eq_length_filter]
        simp
      · intro total cnt avg mx ind h
        simp only [SAR.analyze_batch, hfil] at h
        cases h
        refine ⟨rfl, ?_, ?_, ?_, ?_⟩
        · rw [List.countP_eq_length_filter, hfil]
        · simp [List.length_map]
        · rcases SAR.foldl_max_mem s.glof_probability
              (rest.map (fun r => r.glof_probability)) with hm | hm
          · rw [hm]
            simp
          · simp only [List.map_cons]
            exact List.mem_cons_of_mem _ hm
        · intro x hx
          simp only [List.map_cons, List.mem_cons] at hx
          rcases hx with h | h
          · subst h
            exact SAR.foldl_max_init_le _ _
          · exact SAR.le_foldl_max _ _ x h
  · intro α analyze pre p rest e hpre hp
    unfold Lake.compare_images
    rw [run_images_error_after_ok_run analyze pre p rest e hpre hp]

/-- Witness for `batch_isolation_amended`: with predictor `mixed_predict`
(image 0 fails, image 1 succeeds at probability 60), the 2-image batch
reports 1 of 2 succeeded and aggregates only over the succeeded one; and
the lake comparison on [1, 0, 2] — image 1 readable, image 0 unreadable,
image 2 readable but never reached — aborts with image 0's error. -/
theorem batch_isolation_amended_witness :
    2 = ([0, 1] : List ℕ).length ∧
    1 = (([0, 1] : List ℕ).map mixed_predict).countP (fun r => r.success) ∧
    (60 : ℚ) ∈ ((([0, 1] : List ℕ).map mixed_predict).filter
        (fun r => r.success)).map (fun r => r.glof_probability) ∧
    Lake.compare_images failing_then_ok ([1, 0, 2] : List ℕ)
      = Except.error "Could not read image" := by
  have h := (batch_isolation_amended.1 ℕ mixed_predict [0, 1]).2.2 2 1 60 60
    (([0, 1] : List ℕ).map mixed_predict)
    (by norm_num [SAR.analyze_batch, mixed_predict])
  refine ⟨h.1, h.2.1, h.2.2.2.1, ?_⟩
  exact batch_isolation_amended.2 ℕ failing_then_ok [1] 0 [2]
    "Could not read image"
    (by intro q hq; simp at hq; subst hq; exact ⟨⟨true, 10⟩, rfl⟩) rfl

/-- Unfolding equation for `SAR.normalize`. -/
theorem sar_normalize_def (l : List ℚ) : SAR.normalize l =
    if 0 < SAR.listMax l - SAR.listMin l then
      l.map (fun x => (x - SAR.listMin l) / (SAR.listMax l - SAR.listMin l))
    else l.map (fun _ => 0) := rfl

/-- C9: min–max normalization maps every constant grid to the all-zero grid
(the division is never taken there), and on every non-constant grid whose
values already lie in [0, 1] it is idempotent:
normalize (normalize x) = normalize x, exactly over the rationals. -/
theorem normalize_spec (l : List ℚ) :
    (∀ c : ℚ, (∀ x ∈ l, x = c) → SAR.normalize l = l.map (fun _ => 0)) ∧
    ((∃ a ∈ l, ∃ b ∈ l, a ≠ b) → (∀ x ∈ l, 0 ≤ x ∧ x ≤ 1) →
      SAR.normalize (SAR.normalize l) = SAR.normalize l) := by
  constructor
  · intro c hc
    by_cases hl : l = []
    · subst hl
      simp [sar_normalize_def, SAR.listMin, SAR.listMax]
    · have h1 : SAR.listMin l = c := hc _ (SAR.listMin_mem l hl)
      have h2 : SAR.listMax l = c := hc _ (SAR.listMax_mem l hl)
      simp [sar_normalize_def, h1, h2]
  · intro hab _hrange
    obtain ⟨a, ha, b, hb, hne⟩ := hab
    have hnenil : l ≠ [] := List.ne_nil_of_mem ha
    have hmM : SAR.listMin l < SAR.listMax l := by
      rcases lt_or_le (SAR.listMin l) (SAR.listMax l) with h | h
      · exact h
      · exact absurd
          (le_antisymm
            (le_trans (SAR.le_listMax l a ha)
              (le_trans h (SAR.listMin_le l b hb)))
            (le_trans (SAR.le_listMax l b hb)
              (le_trans h (SAR.listMin_le l a ha))))
          hne
    have hpos : 0 < SAR.listMax l - SAR.listMin l := sub_pos.mpr hmM
    have h1 : SAR.normalize l
        = l.map (fun x => (x - SAR.listMin l) / (SAR.listMax l - SAR.listMin l)) := by
      rw [sar_normalize_def, if_pos hpos]
    have hmem0 : (0 : ℚ) ∈ SAR.normalize l := by
      rw [h1]
      exact List.mem_map.mpr ⟨SAR.listMin l, SAR.listMin_mem l hnenil, by simp⟩
    have hlb : ∀ y ∈ SAR.normalize l, 0 ≤ y := by
      rw [h1]
      intro y hy
      obtain ⟨x, hx, rfl⟩ := List.mem_map.mp hy
      exact div_nonneg (sub_nonneg.mpr (SAR.listMin_le l x hx)) (le_of_lt hpos)
    have hmem1 : (1 : ℚ) ∈ SAR.normalize l := by
      rw [h1]
      exact List.mem_map.mpr
        ⟨SAR.listMax l, SAR.listMax_mem l hnenil, div_self (ne_of_gt hpos)⟩
    have hub : ∀ y ∈ SAR.normalize l, y ≤ 1 := by
      rw [h1]
      intro y hy
      obtain ⟨x, hx, rfl⟩ := List.mem_map.mp hy
      rw [div_le_one hpos]
      exact sub_le_sub_right (SAR.le_listMax l x hx) _
    have hmin' : SAR.listMin (SAR.normalize l) = 0 :=
      SAR.listMin_eq_of _ _ hmem0 hlb
    have hmax' : SAR.listMax (SAR.normalize l) = 1 :=
      SAR.listMax_eq_of _ _ hmem1 hub
    rw [sar_normalize_def (SAR.normalize l), hmin', hmax',
      if_pos (by norm_num : (0 : ℚ) < 1 - 0)]
    simp

/-- Witness for `normalize_spec`: the constant grid [2, 2] normalizes to
[0, 0]; the non-constant [0, 1]-ranged grid [0, 1] is a fixed point of a
second normalization. -/
theorem normalize_spec_witness :
    SAR.normalize [2, 2] = [0, 0] ∧
    SAR.normalize (SAR.normalize [0, 1]) = SAR.normalize [0, 1] := by
  constructor
  · have h := (normalize_spec [2, 2]).1 2 (by intro x hx; simp at hx; exact hx)
    rw [h]
    rfl
  · exact (normalize_spec [0, 1]).2
      ⟨0, by simp, 1, by simp, by norm_num⟩
      (by intro x hx; simp at hx; rcases hx with rfl | rfl <;> norm_num)

/-- C10: on non-negative class probabilities the SAR formatter's aggregate
GLOF probability — during×1.0 + post×0.3 + pre×0.1 on the percentage scale,
capped at 100 — always lies in [0, 100], and equals the uncapped weighted
sum whenever that sum is at most 100. -/
theorem glof_probability_bounds (pre dur post : ℚ)
    (h1 : 0 ≤ pre) (h2 : 0 ≤ dur) (h3 : 0 ≤ post) :
    0 ≤ SAR.glof_probability pre dur post ∧
    SAR.glof_probability pre dur post ≤ 100 ∧
    ((dur * 100) * 1 + (post * 100) * (3 / 10) + (pre * 100) * (1 / 10) ≤ 100 →
      SAR.glof_probability pre dur post
        = (dur * 100) * 1 + (post * 100) * (3 / 10) + (pre * 100) * (1 / 10)) := by
  refine ⟨?_, ?_, ?_⟩
  · exact le_min (by norm_num) (by nlinarith)
  · exact min_le_left _ _
  · intro h
    exact min_eq_right h

/-- Witness for `glof_probability_bounds`: the probability vector
(pre, during, post) = (0, 1/2, 0) gives an aggregate of 50, inside [0, 100]. -/
theorem glof_probability_bounds_witness :
    0 ≤ SAR.glof_probability 0 (1 / 2) 0 ∧
    SAR.glof_probability 0 (1 / 2) 0 ≤ 100 ∧
    SAR.glof_probability 0 (1 / 2) 0 = 50 := by
  have h := glof_probability_bounds 0 (1 / 2) 0
    (by norm_num) (by norm_num) (by norm_num)
  refine ⟨h.1, h.2.1, ?_⟩
  rw [h.2.2 (by norm_num)]
  norm_num

namespace Pred

/-- `GLOFPredictor._generate_mock_probability` (prediction_service.py lines
128-147). `sensor_values` is the Python dict, modelled as a partial map from
sensor names; the `.get` defaults mirror the source, and the symmetric
random perturbation `np.random.uniform(-0.05, 0.05)` is an explicit
`noise` parameter. -/
def generate_mock_probability (sensor_values : String → Option ℚ)
    (noise : ℚ) : ℚ :=
  let water_level := (sensor_values "Water_Level_m").getD 10
  let flow_rate := (sensor_values "Flow_Rate_m3_per_s").getD 100
  let ground_movement := (sensor_values "Ground_Movement_mm").getD 2
  let precipitation := (sensor_values "Precipitation_mm").getD 50
  let water_factor := min (water_level / 20) 1
  let flow_factor := min (flow_rate / 200) 1
  let movement_factor := min (ground_movement / 10) 1
  let precip_factor := min (precipitation / 100) 1
  let base_prob := water_factor * (3 / 10) + flow_factor * (1 / 4)
    + movement_factor * (1 / 4) + precip_factor * (1 / 5)
  max 0 (min 1 (base_prob + noise))

/-- The risk bucket of `GLOFPredictor.predict` (lines 109-118):
probability ≥ 0.7 is HIGH, ≥ 0.4 MODERATE, else LOW. -/
def predict_risk_level (probability : ℚ) : Lake.RiskLevel :=
  if probability ≥ 7 / 10 then Lake.RiskLevel.HIGH
  else if probability ≥ 2 / 5 then Lake.RiskLevel.MODERATE
  else Lake.RiskLevel.LOW

/-- The scenario-D sensor vector: each of the four weighted readings sits
exactly at its normalization cap. -/
def scenarioD (k : String) : Option ℚ :=
  if k = "Water_Level_m" then some 20
  else if k = "Flow_Rate_m3_per_s" then some 200
  else if k = "Ground_Movement_mm" then some 10
  else if k = "Precipitation_mm" then some 100
  else none

end Pred

/-- C4: with no trained classifier, the heuristic at the scenario-D feature
vector (Water_Level_m = 20, Flow_Rate = 200, Ground_Movement = 10,
Precipitation = 100) and zero noise returns probability exactly 1
(0.30 + 0.25 + 0.25 + 0.20 clamped to [0,1]) and the predict risk bucket
classifies it HIGH. -/
theorem mock_probability_at_caps :
    Pred.generate_mock_probability Pred.scenarioD 0 = 1 ∧
    Pred.predict_risk_level (Pred.generate_mock_probability Pred.scenarioD 0)
      = Lake.RiskLevel.HIGH := by
  have hw : Pred.scenarioD "Water_Level_m" = some 20 := rfl
  have hf : Pred.scenarioD "Flow_Rate_m3_per_s" = some 200 := rfl
  have hg : Pred.scenarioD "Ground_Movement_mm" = some 10 := rfl
  have hp : Pred.scenarioD "Precipitation_mm" = some 100 := rfl
  have h : Pred.generate_mock_probability Pred.scenarioD 0 = 1 := by
    simp only [Pred.generate_mock_probability, hw, hf, hg, hp, Option.getD_some]
    norm_num
  refine ⟨h, ?_⟩
  rw [h]
  norm_num [Pred.predict_risk_level]

namespace DEM

/-- Return shape of `DEMAnalyzer.analyze_dem`: `{success: True, ...}` or
`{success: False, error: msg}`. -/
inductive DemResult (β : Type) where
  | ok (value : β)
  | failure (error : String)
deriving DecidableEq

/-- `DEMAnalyzer.analyze_dem` (dem_service.py lines 35-132), error routing:
the rasterio import is attempted first and its absence returns the fixed
"rasterio not installed" failure before any file is touched; otherwise the
file is loaded (a decode error surfaces its own message via the broad
`except`) and the flow metrics are computed (`compute` abstracts lines
79-129, whose numeric failures the same `except` also converts). -/
def analyze_dem {α β : Type} (rasterio_installed : Bool)
    (load : Except String α) (compute : α → Except String β) : DemResult β :=
  if rasterio_installed = false then DemResult.failure "rasterio not installed"
  else
    match load with
    | Except.error e => DemResult.failure e
    | Except.ok dem =>
      match compute dem with
      | Except.error e => DemResult.failure e
      | Except.ok m => DemResult.ok m

end DEM

/-- C5: with the geospatial-raster capability absent, `analyze_dem` returns
the fixed "rasterio not installed" failure whatever the file contains, never
a success (no heuristic fallback exists); a corrupt file instead surfaces
the decoder's own message, so the two failures are distinct whenever the
decode message differs from the capability message. -/
theorem dem_unavailable_distinct (α β : Type) (load : Except String α)
    (compute : α → Except String β) :
    DEM.analyze_dem false load compute
      = DEM.DemResult.failure "rasterio not installed" ∧
    (∀ v : β, DEM.analyze_dem false load compute ≠ DEM.DemResult.ok v) ∧
    (∀ e : String,
      DEM.analyze_dem true (Except.error e : Except String α) compute
        = DEM.DemResult.failure e) ∧
    (∀ e : String, e ≠ "rasterio not installed" →
      DEM.analyze_dem true (Except.error e : Except String α) compute
        ≠ DEM.analyze_dem false load compute) := by
  refine ⟨rfl, ?_, ?_, ?_⟩
  · intro v h
    simp [DEM.analyze_dem] at h
  · intro e
    simp [DEM.analyze_dem]
  · intro e he h
    simp [DEM.analyze_dem] at h
    exact he h

/-- Witness for `dem_unavailable_distinct`: for a corrupt file whose decode
error is "corrupt file", the capability-absent result is the fixed
unavailable failure and differs from the decode failure. -/
theorem dem_unavailable_distinct_witness :
    DEM.analyze_dem false (Except.error "corrupt file" : Except String Unit)
        (fun _ : Unit => Except.ok ())
      = DEM.DemResult.failure "rasterio not installed" ∧
    DEM.analyze_dem true (Except.error "corrupt file" : Except String Unit)
        (fun _ : Unit => Except.ok ())
      ≠ DEM.analyze_dem false (Except.error "corrupt file" : Except String Unit)
        (fun _ : Unit => Except.ok ()) := by
  have h := dem_unavailable_distinct Unit Unit
    (Except.error "corrupt file") (fun _ => Except.ok ())
  exact ⟨h.1, h.2.2.2 "corrupt file" (by decide)⟩

namespace Motion

/-- The two aggregate features of one `analyze_frame_pair` result consumed
by the video-level aggregation. -/
structure FrameResult where
  total_flow_volume : ℚ
  avg_flow_velocity : ℚ
deriving DecidableEq, Repr

/-- Motion risk labels: the usual three plus the UNKNOWN placeholder used
when no frame pair was analyzed. -/
inductive MotionRisk where
  | LOW
  | MODERATE
  | HIGH
  | UNKNOWN
deriving DecidableEq, Repr

/-- `MotionDetector._assess_risk` (motion_service.py lines 201-208). -/
def assess_motion_risk (avg_volume avg_velocity : ℚ) : MotionRisk :=
  if avg_volume > 10 ∨ avg_velocity > 5 then MotionRisk.HIGH
  else if avg_volume > 5 ∨ avg_velocity > 2 then MotionRisk.MODERATE
  else MotionRisk.LOW

/-- The frame loop of `analyze_video` (motion_service.py lines 146-162):
frames are read in order until the stream ends or `max_frames` pairs were
analyzed; every `frame_skip`-th frame is retained, a retained frame is
paired with the previously retained one (none for the first), and becomes
the new previous frame. -/
def video_loop {φ : Type} (analyze_pair : φ → φ → FrameResult)
    (frame_skip max_frames : ℕ) :
    List φ → ℕ → ℕ → Option φ → List FrameResult
  | [], _, _, _ => []
  | f :: rest, frame_count, analyzed_count, prev =>
    if max_frames ≤ analyzed_count then []
    else
      if (frame_count + 1) % frame_skip ≠ 0 then
        video_loop analyze_pair frame_skip max_frames rest
          (frame_count + 1) analyzed_count prev
      else
        match prev with
        | none =>
          video_loop analyze_pair frame_skip max_frames rest
            (frame_count + 1) analyzed_count (some f)
        | some p =>
          analyze_pair p f ::
            video_loop analyze_pair frame_skip max_frames rest
              (frame_count + 1) (analyzed_count + 1) (some f)

/-- Return shape of `analyze_video`: the `{success: False, error}` record
for an unopenable source, or the `{success: True, ...}` report. -/
inductive VideoOutcome where
  | failure (error : String)
  | report (frames_analyzed : ℕ)
      (avg_flow_volume max_flow_volume avg_flow_velocity : ℚ)
      (risk : MotionRisk)
deriving DecidableEq, Repr

/-- `MotionDetector.analyze_video` (motion_service.py lines 113-199):
`opened` models `cap.isOpened()`, `frames` the decodable frame sequence.
An unopenable source fails explicitly; otherwise the per-pair results are
aggregated, with a zero/UNKNOWN success report when no pair was analyzed. -/
def analyze_video {φ : Type} (analyze_pair : φ → φ → FrameResult)
    (opened : Bool) (frames : List φ) (max_frames frame_skip : ℕ) :
    VideoOutcome :=
  if opened = false then VideoOutcome.failure "Could not open video"
  else
    match video_loop analyze_pair frame_skip max_frames frames 0 0 none with
    | [] => VideoOutcome.report 0 0 0 0 MotionRisk.UNKNOWN
    | r :: rs =>
      let volumes := (r :: rs).map (fun x => x.total_flow_volume)
      let velocities := (r :: rs).map (fun x => x.avg_flow_velocity)
      let avg_volume := volumes.sum / ((volumes.length : ℚ))
      let max_volume :=
        (rs.map (fun x => x.total_flow_volume)).foldl max r.total_flow_volume
      let avg_velocity := velocities.sum / ((velocities.length : ℚ))
      VideoOutcome.report (r :: rs).length avg_volume max_volume avg_velocity
        (assess_motion_risk avg_volume avg_velocity)

end Motion

/-- C6 counterexample: a video source that opens but yields no decodable
frame ends the read loop immediately, and `analyze_video` returns a
success report with zero frames analyzed, zero aggregates and risk UNKNOWN
— a zero-valued success result, not the explicit failure the claim
requires for an undecodable source. -/
theorem video_failure_counterexample :
    Motion.analyze_video (fun _ _ : Unit => ⟨0, 0⟩) true [] 100 1
      = Motion.VideoOutcome.report 0 0 0 0 Motion.MotionRisk.UNKNOWN := rfl

/-- C6 (amended): `analyze_video` returns an explicit failure — success
false with error "Could not open video" — exactly when the source cannot
be opened; whenever the source opens, the result is a success report, and
in particular a source that opens but yields no analyzable frame pair
produces the success report with zero frames analyzed, zero aggregates and
risk UNKNOWN rather than an explicit failure. -/
theorem video_failure_amended {φ : Type} (analyze_pair : φ → φ → Motion.FrameResult)
    (opened : Bool) (frames : List φ) (max_frames frame_skip : ℕ) :
    ((∃ e, Motion.analyze_video analyze_pair opened frames max_frames frame_skip
        = Motion.VideoOutcome.failure e) ↔ opened = false) ∧
    (opened = false →
      Motion.analyze_video analyze_pair opened frames max_frames frame_skip
        = Motion.VideoOutcome.failure "Could not open video") ∧
    (opened = true → frames = [] →
      Motion.analyze_video analyze_pair opened frames max_frames frame_skip
        = Motion.VideoOutcome.report 0 0 0 0 Motion.MotionRisk.UNKNOWN) := by
  refine ⟨?_, ?_, ?_⟩
  · cases opened with
    | false =>
      simp [Motion.analyze_video]
    | true =>
      simp only [Motion.analyze_video]
      constructor
      · intro ⟨e, he⟩
        cases hloop : Motion.video_loop analyze_pair frame_skip max_frames
            frames 0 0 none with
        | nil => simp [hloop] at he
        | cons r rs => simp [hloop] at he
      · intro h
        cases h
  · intro h
    subst h
    rfl
  · intro h hf
    subst h
    subst hf
    rfl

/-- Witness for `video_failure_amended`: an unopenable source gives the
explicit failure; an opened source with no decodable frame gives the
zero/UNKNOWN success report. -/
theorem video_failure_amended_witness :
    Motion.analyze_video (fun _ _ : Unit => ⟨1, 1⟩) false [(), ()] 100 1
      = Motion.VideoOutcome.failure "Could not open video" ∧
    Motion.analyze_video (fun _ _ : Unit => ⟨1, 1⟩) true [] 100 2
      = Motion.VideoOutcome.report 0 0 0 0 Motion.MotionRisk.UNKNOWN :=
  ⟨(video_failure_amended (fun _ _ : Unit => ⟨1, 1⟩) false [(), ()] 100 1).2.1 rfl,
   (video_failure_amended (fun _ _ : Unit => ⟨1, 1⟩) true [] 100 2).2.2 rfl rfl⟩

namespace Lake

/-- 8-connectivity of pixels (`measure.label` uses full 2-D connectivity by
default): distinct cells whose coordinates differ by at most 1 each. -/
def adjacent (p q : ℤ × ℤ) : Prop :=
  p ≠ q ∧ (p.1 - q.1).natAbs ≤ 1 ∧ (p.2 - q.2).natAbs ≤ 1

instance (p q : ℤ × ℤ) : Decidable (adjacent p q) := by
  unfold adjacent
  infer_instance

/-- One saturation step of connected-component labeling inside mask `s`:
add every mask cell adjacent to the current set. -/
def grow (s t : Finset (ℤ × ℤ)) : Finset (ℤ × ℤ) :=
  t ∪ s.filter (fun q => ∃ p ∈ t, adjacent p q)

/-- The 8-connected component of `p` inside mask `s`: `s.card` growth steps
saturate reachability, since every step short of saturation adds a cell. -/
def component (s : Finset (ℤ × ℤ)) (p : ℤ × ℤ) : Finset (ℤ × ℤ) :=
  Nat.iterate (grow s) s.card {p}

/-- `_get_largest_region_size` (lake_service.py lines 136-139) on a mask:
the pixel count of the largest 8-connected region (0 for the empty mask). -/
def largest_region (s : Finset (ℤ × ℤ)) : ℕ :=
  s.sup (fun p => (component s p).card)

/-- The footprint of `skimage.morphology.disk r`: offsets within Euclidean
distance `r` of the origin. -/
def disk_offsets (r : ℕ) : Finset (ℤ × ℤ) :=
  (Finset.Icc (-(r : ℤ)) (r : ℤ) ×ˢ Finset.Icc (-(r : ℤ)) (r : ℤ)).filter
    (fun o => o.1 ^ 2 + o.2 ^ 2 ≤ (r : ℤ) ^ 2)

/-- Binary morphological dilation by `disk r` (`skimage.morphology.dilation`,
applied at lake_service.py lines 87-88): a cell is set iff some mask cell
lies within the disk footprint of it. -/
def dilation (s : Finset (ℤ × ℤ)) (r : ℕ) : Finset (ℤ × ℤ) :=
  s.biUnion (fun p => (disk_offsets r).image (fun o => (p.1 + o.1, p.2 + o.2)))

theorem subset_grow (s t : Finset (ℤ × ℤ)) : t ⊆ grow s t :=
  Finset.subset_union_left

theorem grow_mono {s s' t t' : Finset (ℤ × ℤ)} (hs : s ⊆ s') (ht : t ⊆ t') :
    grow s t ⊆ grow s' t' := by
  intro q hq
  rw [grow, Finset.mem_union] at hq ⊢
  rcases hq with hq | hq
  · exact Or.inl (ht hq)
  · rw [Finset.mem_filter] at hq
    obtain ⟨hqs, p, hp, hadj⟩ := hq
    exact Or.inr (Finset.mem_filter.mpr ⟨hs hqs, p, ht hp, hadj⟩)

theorem iterate_grow_mono {s s' : Finset (ℤ × ℤ)} (hs : s ⊆ s') (n : ℕ)
    {t t' : Finset (ℤ × ℤ)} (ht : t ⊆ t') :
    Nat.iterate (grow s) n t ⊆ Nat.iterate (grow s') n t' := by
  induction n generalizing t t' with
  | zero => exact ht
  | succ n ih =>
    rw [Function.iterate_succ_apply', Function.iterate_succ_apply']
    exact grow_mono hs (ih ht)

theorem iterate_grow_fuel_mono {s t : Finset (ℤ × ℤ)} {n m : ℕ} (h : n ≤ m) :
    Nat.iterate (grow s) n t ⊆ Nat.iterate (grow s) m t := by
  induction m with
  | zero =>
    have : n = 0 := Nat.le_zero.mp h
    subst this
    exact subset_refl _
  | succ m ih =>
    rcases Nat.le_succ_iff.mp h with h' | h'
    · refine subset_trans (ih h') ?_
      rw [Function.iterate_succ_apply']
      exact subset_grow _ _
    · subst h'
      exact subset_refl _

theorem component_mono {s t : Finset (ℤ × ℤ)} (hst : s ⊆ t) (p : ℤ × ℤ) :
    component s p ⊆ component t p :=
  subset_trans (iterate_grow_mono hst s.card (subset_refl {p}))
    (iterate_grow_fuel_mono (Finset.card_le_card hst))

theorem largest_region_mono {s t : Finset (ℤ × ℤ)} (hst : s ⊆ t) :
    largest_region s ≤ largest_region t := by
  apply Finset.sup_le
  intro p hp
  exact le_trans (Finset.card_le_card (component_mono hst p))
    (Finset.le_sup (f := fun q => (component t q).card) (hst hp))

theorem subset_dilation (s : Finset (ℤ × ℤ)) (r : ℕ) : s ⊆ dilation s r := by
  intro p hp
  rw [dilation, Finset.mem_biUnion]
  refine ⟨p, hp, ?_⟩
  rw [Finset.mem_image]
  refine ⟨(0, 0), ?_, ?_⟩
  · rw [disk_offsets, Finset.mem_filter]
    constructor
    · rw [Finset.mem_product]
      constructor <;> (rw [Finset.mem_Icc]; omega)
    · positivity
  · simp

end Lake

/-- C8: for every non-empty binary mask and dilation radius, the pixel count
of the largest 8-connected region after morphological dilation by the disk
of that radius is at least the pixel count of the largest region before:
the disk footprint contains the origin, so dilation only enlarges the mask,
and the largest-region metric is monotone under mask inclusion. -/
theorem dilation_largest_region_monotone (mask : Finset (ℤ × ℤ)) (r : ℕ)
    (_hne : mask.Nonempty) :
    Lake.largest_region mask ≤ Lake.largest_region (Lake.dilation mask r) :=
  Lake.largest_region_mono (Lake.subset_dilation mask r)

/-- Witness for `dilation_largest_region_monotone`: the singleton mask has
largest region 1, and after dilation by disk 1 its largest region is no
smaller. -/
theorem dilation_largest_region_monotone_witness :
    Lake.largest_region {((0 : ℤ), (0 : ℤ))} = 1 ∧
    Lake.largest_region {((0 : ℤ), (0 : ℤ))}
      ≤ Lake.largest_region (Lake.dilation {((0 : ℤ), (0 : ℤ))} 1) :=
  ⟨by decide,
   dilation_largest_region_monotone _ 1 ⟨(0, 0), Finset.mem_singleton_self _⟩⟩
